import Mathlib

/-!
Verification of the anomaly-detection engine in `anomaly_model.py`.

The Python module is embedded shallowly:

* numeric values (pixel coordinates, timestamps, confidences, IoU scores)
  are modelled by `ℚ`;
* the mutable `AnomalyDetector` object becomes a `DetectorState` value that
  is threaded explicitly through the per-frame `step` function;
* the insertion-ordered `dict` of tracks becomes an association list
  `List (Nat × Track)` (CPython dicts preserve insertion order);
* the `unmatched` set of small detection indices is modelled as an ascending
  list of indices (CPython iterates such a set in ascending order);
* `math.hypot dx dy ≤ r` comparisons (with `r ≥ 0`) are modelled by the
  equivalent `dx^2 + dy^2 ≤ r^2`, which keeps the whole model inside `ℚ`;
* Python's `round(x, 1)` is modelled with `round (x * 10) / 10`; the two
  differ only at exact half-ties (Python rounds half to even), which never
  arise in any statement below.
-/

set_option maxRecDepth 2000

/-- Axis-aligned box `(x1, y1, x2, y2)`, the Python 4-tuple. -/
structure Box where
  x1 : ℚ
  y1 : ℚ
  x2 : ℚ
  y2 : ℚ
deriving DecidableEq, Repr

/-- `iou` (anomaly_model.py lines 10-21): intersection over union with the
`1e-6` guard added to the denominator. -/
def iou (boxA boxB : Box) : ℚ :=
  let xA := max boxA.x1 boxB.x1
  let yA := max boxA.y1 boxB.y1
  let xB := min boxA.x2 boxB.x2
  let yB := min boxA.y2 boxB.y2
  let inter := max 0 (xB - xA) * max 0 (yB - yA)
  if inter ≤ 0 then 0
  else
    let areaA := (boxA.x2 - boxA.x1) * (boxA.y2 - boxA.y1)
    let areaB := (boxB.x2 - boxB.x1) * (boxB.y2 - boxB.y1)
    inter / (areaA + areaB - inter + 1 / 1000000)

/-- `center_of` (lines 23-25). -/
def center_of (box : Box) : ℚ × ℚ :=
  ((box.x1 + box.x2) / 2, (box.y1 + box.y2) / 2)

/-- Squared Euclidean distance.  The Python code only uses
`math.hypot (a-b) ≤ r` with a nonnegative threshold `r`, which is equivalent
to `euclidSq a b ≤ r^2`. -/
def euclidSq (a b : ℚ × ℚ) : ℚ :=
  (a.1 - b.1) ^ 2 + (a.2 - b.2) ^ 2

/-- Python's `round(x, 1)` (one decimal).  Differs from Python only at exact
half-ties, which do not occur in any concrete value below. -/
def round1 (q : ℚ) : ℚ :=
  (round (q * 10) : ℤ) / 10

/-- The `Track` dataclass (lines 33-47). -/
structure Track where
  id : Nat
  cls : String
  box : Box
  conf : ℚ
  first_time : ℚ
  last_time : ℚ
  first_center : ℚ × ℚ
  alerted : Bool
deriving DecidableEq, Repr

/-- `Track.update` (lines 44-47). -/
def Track.update (tr : Track) (box : Box) (conf t : ℚ) : Track :=
  { tr with box := box, conf := conf, last_time := t }

/-- One detection `(cls_name, conf, box)`. -/
structure Det where
  cls : String
  conf : ℚ
  box : Box
deriving DecidableEq, Repr

/-- An alert dict.  `label` is `none` on loitering alerts and `some cls` on
abandoned-object alerts, mirroring which keys the two dicts carry. -/
structure Alert where
  type : String
  track_id : Nat
  since_s : ℚ
  box : Box
  conf : ℚ
  label : Option String
deriving DecidableEq, Repr

/-- Class attribute `MATCH_IOU_THR = 0.3` (line 62). -/
def MATCH_IOU_THR : ℚ := 3 / 10

/-- Class attribute `LOITER_TIME_S = 30.0` (line 63). -/
def LOITER_TIME_S : ℚ := 30

/-- Class attribute `LOITER_RADIUS_PX = 40.0` (line 64). -/
def LOITER_RADIUS_PX : ℚ := 40

/-- Class attribute `ABANDON_TIME_S = 20.0` (line 65). -/
def ABANDON_TIME_S : ℚ := 20

/-- Class attribute `NEAR_PERSON_DIST_PX = 80.0` (line 66). -/
def NEAR_PERSON_DIST_PX : ℚ := 80

/-- Class attribute `MAX_TRACK_AGE_S = 5.0` (line 67). -/
def MAX_TRACK_AGE_S : ℚ := 5

/-- Class attribute `PERSON_LABELS = {"person"}` (line 69). -/
def PERSON_LABELS : List String := ["person"]

/-- Class attribute `OBJECT_LABELS = {"handbag", "backpack", "suitcase"}`
(line 70). -/
def OBJECT_LABELS : List String := ["handbag", "backpack", "suitcase"]

/-- The mutable state of an `AnomalyDetector` instance: the id counter and the
insertion-ordered track table. -/
structure DetectorState where
  next_id : Nat
  tracks : List (Nat × Track)
deriving DecidableEq, Repr

/-- `AnomalyDetector.__init__` (lines 72-74): `next_id = 1`, empty table. -/
def AnomalyDetector.init : DetectorState :=
  { next_id := 1, tracks := [] }

/-- The per-track best-candidate scan inside `_associate` (lines 97-104):
fold over the unmatched indices, keeping the same-class detection of strictly
largest IoU (`best_j = -1` is modelled as `none`). -/
def bestMatch (tr : Track) (dets : List Det) :
    List Nat → Option Nat × ℚ → Option Nat × ℚ
  | [], acc => acc
  | j :: rest, acc =>
    match dets.get? j with
    | none => bestMatch tr dets rest acc
    | some d =>
      if d.cls = tr.cls then
        if acc.2 < iou tr.box d.box then
          bestMatch tr dets rest (some j, iou tr.box d.box)
        else bestMatch tr dets rest acc
      else bestMatch tr dets rest acc

/-- The body of the update branch (lines 106-110): `tr.update(box, conf, t)`
followed by the `first_center == (0,0)` backfill. -/
def applyMatch (tr : Track) (d : Det) (t : ℚ) : Track :=
  let tr1 := tr.update d.box d.conf t
  if tr1.first_center = ((0 : ℚ), (0 : ℚ)) then
    { tr1 with first_center := center_of d.box }
  else tr1

/-- The matching loop of `_associate` (lines 96-111): each existing track, in
table order, takes its best unmatched same-class detection when the score
clears `MATCH_IOU_THR`; a claimed index is removed from `unmatched`. -/
def matchLoop (dets : List Det) (t : ℚ) :
    List (Nat × Track) → List Nat → List (Nat × Track) × List Nat
  | [], unmatched => ([], unmatched)
  | (tid, tr) :: rest, unmatched =>
    match bestMatch tr dets unmatched (none, 0) with
    | (some j, s) =>
      if MATCH_IOU_THR ≤ s then
        match dets.get? j with
        | some d =>
          let res := matchLoop dets t rest (unmatched.erase j)
          ((tid, applyMatch tr d t) :: res.1, res.2)
        | none =>
          let res := matchLoop dets t rest unmatched
          ((tid, tr) :: res.1, res.2)
      else
        let res := matchLoop dets t rest unmatched
        ((tid, tr) :: res.1, res.2)
    | (none, _) =>
      let res := matchLoop dets t rest unmatched
      ((tid, tr) :: res.1, res.2)

/-- Track creation for leftover detections (lines 113-122): ids come from the
increasing counter, `first_time = last_time = t`, `first_center` is the box
center, `alerted` is false. -/
def createTracks (dets : List Det) (t : ℚ) :
    List Nat → Nat → List (Nat × Track) × Nat
  | [], nid => ([], nid)
  | j :: rest, nid =>
    match dets.get? j with
    | none => createTracks dets t rest nid
    | some d =>
      let tr : Track :=
        { id := nid, cls := d.cls, box := d.box, conf := d.conf,
          first_time := t, last_time := t, first_center := center_of d.box,
          alerted := false }
      let res := createTracks dets t rest (nid + 1)
      ((nid, tr) :: res.1, res.2)

/-- `_associate` (lines 92-122). -/
def associate (s : DetectorState) (dets : List Det) (t : ℚ) : DetectorState :=
  let m := matchLoop dets t s.tracks (List.range dets.length)
  let c := createTracks dets t m.2 s.next_id
  { next_id := c.2, tracks := m.1 ++ c.1 }

/-- `_purge_stale` (lines 124-128): drop tracks with `t - last_time > 5`;
equivalently keep those with `t - last_time ≤ MAX_TRACK_AGE_S`. -/
def purgeStale (s : DetectorState) (t : ℚ) : DetectorState :=
  { s with
    tracks := s.tracks.filter (fun p => decide (t - p.2.last_time ≤ MAX_TRACK_AGE_S)) }

/-- The loitering rule applied to one track (lines 132-151). -/
def loiterStep (t : ℚ) (tr : Track) : Track × Option Alert :=
  if tr.alerted then (tr, none)
  else if tr.cls ∈ PERSON_LABELS then
    let dur := t - tr.first_time
    if dur < LOITER_TIME_S then (tr, none)
    else if euclidSq (center_of tr.box) tr.first_center ≤ LOITER_RADIUS_PX ^ 2 then
      ({ tr with alerted := true },
       some { type := "loitering", track_id := tr.id, since_s := round1 dur,
              box := tr.box, conf := tr.conf, label := none })
    else (tr, none)
  else (tr, none)

/-- The abandonment rule applied to one track (lines 159-183), given the
precomputed person centers. -/
def abandonStep (t : ℚ) (people : List (ℚ × ℚ)) (tr : Track) : Track × Option Alert :=
  if tr.alerted then (tr, none)
  else if tr.cls ∈ OBJECT_LABELS then
    let c := center_of tr.box
    if people.any (fun pc => decide (euclidSq c pc ≤ NEAR_PERSON_DIST_PX ^ 2)) then
      ((if tr.first_center = ((0 : ℚ), (0 : ℚ)) then { tr with first_time := t } else tr),
       none)
    else
      let dur := t - tr.first_time
      if ABANDON_TIME_S ≤ dur then
        ({ tr with alerted := true },
         some { type := "abandoned_object", track_id := tr.id, since_s := round1 dur,
                box := tr.box, conf := tr.conf, label := some tr.cls })
      else (tr, none)
  else (tr, none)

/-- Scan the table in order with a per-track rule, collecting updated tracks
and emitted alerts (the shared shape of `_check_loitering` and
`_check_abandoned`). -/
def scanTracks (f : Track → Track × Option Alert) :
    List (Nat × Track) → List (Nat × Track) × List Alert
  | [] => ([], [])
  | (tid, tr) :: rest =>
    let r := f tr
    let res := scanTracks f rest
    ((tid, r.1) :: res.1, r.2.toList ++ res.2)

/-- `_check_loitering` (lines 130-152). -/
def checkLoitering (tracks : List (Nat × Track)) (t : ℚ) :
    List (Nat × Track) × List Alert :=
  scanTracks (loiterStep t) tracks

/-- The person-center list of `_check_abandoned` (lines 157-158). -/
def peopleCenters (tracks : List (Nat × Track)) (t : ℚ) : List (ℚ × ℚ) :=
  (tracks.filter
      (fun p => decide (p.2.cls ∈ PERSON_LABELS) && decide (t - p.2.last_time < 1))).map
    (fun p => center_of p.2.box)

/-- `_check_abandoned` (lines 154-183). -/
def checkAbandoned (tracks : List (Nat × Track)) (t : ℚ) :
    List (Nat × Track) × List Alert :=
  scanTracks (abandonStep t (peopleCenters tracks t)) tracks

/-- `step` with an explicit timestamp (lines 77-89): associate, purge, then
the loitering scan followed by the abandonment scan. -/
def step (s : DetectorState) (dets : List Det) (t : ℚ) : DetectorState × List Alert :=
  let s1 := associate s dets t
  let s2 := purgeStale s1 t
  let lo := checkLoitering s2.tracks t
  let ab := checkAbandoned lo.1 t
  ({ s2 with tracks := ab.1 }, lo.2 ++ ab.2)

/-- `step` with the optional `now_s` argument (line 83):
`t = time.time() if now_s is None else now_s`, the wall clock being an
explicit oracle here. -/
def stepOpt (s : DetectorState) (dets : List Det) (now_s : Option ℚ)
    (wallClock : ℚ) : DetectorState × List Alert :=
  step s dets (now_s.getD wallClock)

/-- Run a sequence of `step` calls with explicit timestamps, collecting the
per-call alert lists. -/
def runSteps (s : DetectorState) :
    List (List Det × ℚ) → DetectorState × List (List Alert)
  | [] => (s, [])
  | (dets, t) :: rest =>
    let r := step s dets t
    let res := runSteps r.1 rest
    (res.1, r.2 :: res.2)

/-- Run a sequence of `step` calls where each call may or may not supply
`now_s`; `clock n` is the wall-clock reading `time.time()` would return at the
`n`-th remaining call. -/
def runWithClock (s : DetectorState) :
    List (List Det × Option ℚ) → (Nat → ℚ) → DetectorState × List (List Alert)
  | [], _ => (s, [])
  | (dets, now) :: rest, clock =>
    let r := stepOpt s dets now (clock 0)
    let res := runWithClock r.1 rest (fun n => clock (n + 1))
    (res.1, r.2 :: res.2)

/-- Look a track up by id in the association-list table. -/
def findTrack (i : Nat) (l : List (Nat × Track)) : Option Track :=
  (l.find? (fun p => p.1 == i)).map (fun p => p.2)

/-- Number of alerts carrying a given track id across a whole run's outputs. -/
def alertCount (i : Nat) (outs : List (List Alert)) : Nat :=
  outs.flatten.countP (fun a => a.track_id == i)

/-- Basic well-formedness of the table: keys are pairwise distinct, each
track's `id` field equals its key, and every key is below the id counter. -/
def WellFormed (s : DetectorState) : Prop :=
  (s.tracks.map Prod.fst).Nodup ∧
    ∀ p ∈ s.tracks, p.2.id = p.1 ∧ p.1 < s.next_id

/-- Timestamps of a call trace are non-decreasing and bounded below by `T`. -/
def TimesMono : ℚ → List (List Det × ℚ) → Prop
  | _, [] => True
  | T, (_, t) :: rest => T ≤ t ∧ TimesMono t rest

/-- The `areaA`/`areaB` expression of `iou`. -/
def areaOf (B : Box) : ℚ :=
  (B.x2 - B.x1) * (B.y2 - B.y1)

lemma iou_eq_zero_of_x (A B : Box) (h : min A.x2 B.x2 ≤ max A.x1 B.x1) :
    iou A B = 0 := by
  have h0 : min A.x2 B.x2 - max A.x1 B.x1 ≤ 0 := sub_nonpos.2 h
  simp only [iou]
  rw [max_eq_left h0, zero_mul, if_pos le_rfl]

lemma iou_eq_zero_of_y (A B : Box) (h : min A.y2 B.y2 ≤ max A.y1 B.y1) :
    iou A B = 0 := by
  have h0 : min A.y2 B.y2 - max A.y1 B.y1 ≤ 0 := sub_nonpos.2 h
  simp only [iou]
  rw [max_eq_left h0, mul_zero, if_pos le_rfl]

lemma iou_self_eq (B : Box) (hx : B.x1 < B.x2) (hy : B.y1 < B.y2) :
    iou B B = areaOf B / (areaOf B + 1 / 1000000) := by
  have hx' : (0 : ℚ) < B.x2 - B.x1 := sub_pos.2 hx
  have hy' : (0 : ℚ) < B.y2 - B.y1 := sub_pos.2 hy
  have harea : (0 : ℚ) < (B.x2 - B.x1) * (B.y2 - B.y1) := mul_pos hx' hy'
  simp only [iou, max_self, min_self]
  rw [max_eq_right hx'.le, max_eq_right hy'.le, if_neg (not_le.2 harea)]
  unfold areaOf
  congr 1
  ring

lemma iou_comm (A B : Box) : iou A B = iou B A := by
  simp only [iou]
  rw [max_comm A.x1 B.x1, max_comm A.y1 B.y1, min_comm A.x2 B.x2, min_comm A.y2 B.y2]
  split
  · rfl
  · congr 1
    ring

lemma iou_malformed_right (A B : Box) (h : B.x2 ≤ B.x1 ∨ B.y2 ≤ B.y1) :
    iou A B = 0 := by
  rcases h with h | h
  · exact iou_eq_zero_of_x A B
      (le_trans (min_le_right _ _) (le_trans h (le_max_right _ _)))
  · exact iou_eq_zero_of_y A B
      (le_trans (min_le_right _ _) (le_trans h (le_max_right _ _)))

lemma iou_malformed_left (A B : Box) (h : B.x2 ≤ B.x1 ∨ B.y2 ≤ B.y1) :
    iou B A = 0 := by
  rcases h with h | h
  · exact iou_eq_zero_of_x B A
      (le_trans (min_le_left _ _) (le_trans h (le_max_left _ _)))
  · exact iou_eq_zero_of_y B A
      (le_trans (min_le_left _ _) (le_trans h (le_max_left _ _)))

lemma bestMatch_spec (tr : Track) (dets : List Det) :
    ∀ (un : List Nat) (acc : Option Nat × ℚ) (j : Nat) (s : ℚ),
      bestMatch tr dets un acc = (some j, s) →
      acc = (some j, s) ∨
        (j ∈ un ∧ ∃ d, dets.get? j = some d ∧ d.cls = tr.cls ∧
          iou tr.box d.box = s ∧ acc.2 < s) := by
  intro un
  induction un with
  | nil => intro acc j s h; exact Or.inl h
  | cons j0 rest ih =>
    intro acc j s h
    rcases hd : dets.get? j0 with _ | d
    · simp only [bestMatch, hd] at h
      rcases ih acc j s h with h1 | ⟨hmem, hrest⟩
      · exact Or.inl h1
      · exact Or.inr ⟨List.mem_cons_of_mem _ hmem, hrest⟩
    · simp only [bestMatch, hd] at h
      by_cases hcls : d.cls = tr.cls
      · rw [if_pos hcls] at h
        by_cases hlt : acc.2 < iou tr.box d.box
        · rw [if_pos hlt] at h
          rcases ih _ j s h with h1 | ⟨hmem, d', hd', hcls', hiou, hacc⟩
          · have h1a : some j0 = some j := congrArg Prod.fst h1
            have h1b : iou tr.box d.box = s := congrArg Prod.snd h1
            obtain rfl : j0 = j := Option.some.inj h1a
            exact Or.inr ⟨List.mem_cons_self _ _, d, hd, hcls, h1b, h1b ▸ hlt⟩
          · exact Or.inr ⟨List.mem_cons_of_mem _ hmem, d', hd', hcls', hiou,
              lt_trans hlt hacc⟩
        · rw [if_neg hlt] at h
          rcases ih acc j s h with h1 | ⟨hmem, hrest⟩
          · exact Or.inl h1
          · exact Or.inr ⟨List.mem_cons_of_mem _ hmem, hrest⟩
      · rw [if_neg hcls] at h
        rcases ih acc j s h with h1 | ⟨hmem, hrest⟩
        · exact Or.inl h1
        · exact Or.inr ⟨List.mem_cons_of_mem _ hmem, hrest⟩

lemma bestMatch_init_spec (tr : Track) (dets : List Det) (un : List Nat)
    (j : Nat) (s : ℚ) (h : bestMatch tr dets un (none, 0) = (some j, s)) :
    j ∈ un ∧ ∃ d, dets.get? j = some d ∧ d.cls = tr.cls ∧
      iou tr.box d.box = s ∧ 0 < s := by
  rcases bestMatch_spec tr dets un (none, 0) j s h with h1 | ⟨hmem, d, hd, hcls, hiou, hpos⟩
  · exact Option.noConfusion (congrArg Prod.fst h1)
  · exact ⟨hmem, d, hd, hcls, hiou, hpos⟩

/-- C4: `iou(B,B)` equals `area/(area + 1e-6)`, which is strictly below `1`
(the claim's `iou(B,B) = 1.0` fails because of the epsilon guard); `iou` is
symmetric; disjoint boxes have `iou = 0`. -/
theorem C4_iou_algebra :
    (∀ B : Box, B.x1 < B.x2 → B.y1 < B.y2 →
        iou B B = areaOf B / (areaOf B + 1 / 1000000) ∧ iou B B < 1) ∧
    (∀ A B : Box, iou A B = iou B A) ∧
    (∀ A B : Box,
        A.x2 ≤ B.x1 ∨ B.x2 ≤ A.x1 ∨ A.y2 ≤ B.y1 ∨ B.y2 ≤ A.y1 → iou A B = 0) := by
  refine ⟨fun B hx hy => ?_, iou_comm, fun A B h => ?_⟩
  · have harea : (0 : ℚ) < areaOf B := mul_pos (sub_pos.2 hx) (sub_pos.2 hy)
    refine ⟨iou_self_eq B hx hy, ?_⟩
    rw [iou_self_eq B hx hy, div_lt_one (by positivity)]
    norm_num
  · rcases h with h | h | h | h
    · exact iou_eq_zero_of_x A B
        (le_trans (min_le_left _ _) (le_trans h (le_max_right _ _)))
    · exact iou_eq_zero_of_x A B
        (le_trans (min_le_right _ _) (le_trans h (le_max_left _ _)))
    · exact iou_eq_zero_of_y A B
        (le_trans (min_le_left _ _) (le_trans h (le_max_right _ _)))
    · exact iou_eq_zero_of_y A B
        (le_trans (min_le_right _ _) (le_trans h (le_max_left _ _)))

/-- C4 witness: the three conjuncts instantiated at concrete boxes. -/
theorem C4_iou_algebra_witness :
    (iou ⟨0, 0, 10, 10⟩ ⟨0, 0, 10, 10⟩
        = areaOf ⟨0, 0, 10, 10⟩ / (areaOf ⟨0, 0, 10, 10⟩ + 1 / 1000000) ∧
      iou ⟨0, 0, 10, 10⟩ ⟨0, 0, 10, 10⟩ < 1) ∧
    iou ⟨0, 0, 10, 10⟩ ⟨20, 0, 30, 10⟩ = iou ⟨20, 0, 30, 10⟩ ⟨0, 0, 10, 10⟩ ∧
    iou ⟨0, 0, 10, 10⟩ ⟨20, 0, 30, 10⟩ = 0 :=
  ⟨C4_iou_algebra.1 ⟨0, 0, 10, 10⟩ (by norm_num) (by norm_num),
   C4_iou_algebra.2.1 ⟨0, 0, 10, 10⟩ ⟨20, 0, 30, 10⟩,
   C4_iou_algebra.2.2 ⟨0, 0, 10, 10⟩ ⟨20, 0, 30, 10⟩ (by norm_num)⟩

/-- C4 counterexample: for the concrete non-degenerate box `(0,0,10,10)`,
`iou(B,B)` is not `1.0` (it is `100/(100 + 1e-6)`). -/
theorem C4_iou_self_ne_one :
    iou ⟨0, 0, 10, 10⟩ ⟨0, 0, 10, 10⟩ ≠ 1 := by
  with_unfolding_all decide

/-- C7: a malformed box (`x1 ≥ x2` or `y1 ≥ y2`) has IoU `0` against every
box, in both argument orders, and the best-match scan of `_associate` never
selects a malformed detection (its score `0` can never exceed the
accumulator, which starts at `0`). -/
theorem C7_malformed_boxes :
    (∀ A B : Box, B.x2 ≤ B.x1 ∨ B.y2 ≤ B.y1 → iou A B = 0 ∧ iou B A = 0) ∧
    (∀ (tr : Track) (dets : List Det) (un : List Nat) (j : Nat) (s : ℚ),
        bestMatch tr dets un (none, 0) = (some j, s) →
        ∀ d, dets.get? j = some d → ¬(d.box.x2 ≤ d.box.x1 ∨ d.box.y2 ≤ d.box.y1)) := by
  refine ⟨fun A B h => ⟨iou_malformed_right A B h, iou_malformed_left A B h⟩,
    fun tr dets un j s h d hd hmal => ?_⟩
  obtain ⟨-, d', hd', -, hiou, hpos⟩ := bestMatch_init_spec tr dets un j s h
  rw [hd] at hd'
  obtain rfl : d = d' := Option.some.inj hd'
  rw [iou_malformed_right tr.box d.box hmal] at hiou
  exact lt_irrefl 0 (lt_of_lt_of_le hpos (le_of_eq hiou.symm))

/-- C7 witness: the two conjuncts instantiated at a concrete inverted box and
a concrete best-match run over one well-formed detection. -/
theorem C7_malformed_boxes_witness :
    (iou ⟨0, 0, 10, 10⟩ ⟨7, 3, 2, 9⟩ = 0 ∧ iou ⟨7, 3, 2, 9⟩ ⟨0, 0, 10, 10⟩ = 0) ∧
    ¬(Box.x2 ⟨0, 0, 10, 10⟩ ≤ Box.x1 ⟨0, 0, 10, 10⟩ ∨
      Box.y2 ⟨0, 0, 10, 10⟩ ≤ Box.y1 ⟨0, 0, 10, 10⟩) :=
  ⟨C7_malformed_boxes.1 ⟨0, 0, 10, 10⟩ ⟨7, 3, 2, 9⟩ (by norm_num),
   C7_malformed_boxes.2
     ⟨1, "person", ⟨0, 0, 10, 10⟩, 9/10, 0, 0, (5, 5), false⟩
     [⟨"person", 9/10, ⟨0, 0, 10, 10⟩⟩] [0] 0
     (iou ⟨0, 0, 10, 10⟩ ⟨0, 0, 10, 10⟩)
     (by
       have hpos : (0 : ℚ) < iou ⟨0, 0, 10, 10⟩ ⟨0, 0, 10, 10⟩ := by
         rw [iou_self_eq _ (by norm_num) (by norm_num)]
         norm_num [areaOf]
       simp only [bestMatch, List.get?_cons_zero]
       rw [if_pos trivial, if_pos hpos])
     ⟨"person", 9/10, ⟨0, 0, 10, 10⟩⟩ rfl⟩

/-- The Scenario-B call trace: the identical person box fed once per
time-unit, at `t = 0, 1, …, n-1`. -/
def c5trace (n : Nat) : List (List Det × ℚ) :=
  (List.range n).map (fun k => ([⟨"person", 9/10, ⟨0, 0, 10, 10⟩⟩], (k : ℚ)))

/-- The single loitering alert that run produces (at `t = 30`). -/
def c5alert : Alert :=
  { type := "loitering", track_id := 1, since_s := 30,
    box := ⟨0, 0, 10, 10⟩, conf := 9/10, label := none }

/-- C5 counterexample: feeding the identical person box at `t = 0 … 31`, the
step with timestamp `t = 31` emits no alert; the single loitering alert of
the run is emitted one step earlier, at `t = 30` with `since_s = 30.0`
(`duration = 30 ≥ 30` already holds there). -/
theorem C5_alert_not_at_31 :
    (runSteps AnomalyDetector.init (c5trace 32)).2.get? 31 = some [] ∧
    (runSteps AnomalyDetector.init (c5trace 32)).2.get? 30 = some [c5alert] := by
  with_unfolding_all decide

/-- C5 as amended: over `t = 0 … 40` the run emits exactly one alert, of type
loitering, at the step with timestamp `t = 30`, with `track_id = 1` and
`since_s = 30.0`; every other step (in particular every step after `t = 30`)
emits nothing. -/
theorem C5_loitering_once_at_30 :
    (runSteps AnomalyDetector.init (c5trace 41)).2
      = (List.range 41).map (fun k => if k = 30 then [c5alert] else []) := by
  with_unfolding_all decide

/-- C8 counterexample: `__init__` takes no configuration at all — every
construction yields the same state (id counter `1`, empty table), so no
configuration value is overridable at construction and no validation error
can be raised there. -/
theorem C8_init_is_constant :
    AnomalyDetector.init = { next_id := 1, tracks := [] } := rfl

/-- C8 as amended: construction accepts no configuration arguments and
performs no validation; the match IoU threshold, loitering duration and
radius, abandonment duration and proximity, staleness, person-label set and
object-label set are fixed class-level constants with the listed values. -/
theorem C8_fixed_configuration :
    AnomalyDetector.init.next_id = 1 ∧ AnomalyDetector.init.tracks = [] ∧
    MATCH_IOU_THR = 3 / 10 ∧ LOITER_TIME_S = 30 ∧ LOITER_RADIUS_PX = 40 ∧
    ABANDON_TIME_S = 20 ∧ NEAR_PERSON_DIST_PX = 80 ∧ MAX_TRACK_AGE_S = 5 ∧
    PERSON_LABELS = ["person"] ∧ OBJECT_LABELS = ["handbag", "backpack", "suitcase"] :=
  ⟨rfl, rfl, rfl, rfl, rfl, rfl, rfl, rfl, rfl, rfl⟩

/-- C6: when every call supplies an explicit timestamp, the run is a function
of the call sequence alone — the wall-clock oracle (the `time.time()` branch
of line 83) is never consulted, so two runs with different wall clocks
produce identical states and identical alert sequences. -/
theorem C6_deterministic :
    ∀ (calls : List (List Det × Option ℚ)),
      (∀ c ∈ calls, c.2 ≠ none) →
      ∀ (s : DetectorState) (clk1 clk2 : Nat → ℚ),
        runWithClock s calls clk1 = runWithClock s calls clk2 := by
  intro calls
  induction calls with
  | nil => intro _ s clk1 clk2; rfl
  | cons c rest ih =>
    intro h s clk1 clk2
    obtain ⟨dets, now⟩ := c
    rcases now with _ | t
    · exact absurd rfl (h _ (List.mem_cons_self _ _))
    · simp only [runWithClock, stepOpt, Option.getD_some]
      rw [ih (fun c hc => h c (List.mem_cons_of_mem _ hc)) _
        (fun n => clk1 (n + 1)) (fun n => clk2 (n + 1))]

/-- C6 witness: a concrete two-call trace with explicit timestamps run
against two different wall clocks. -/
theorem C6_deterministic_witness :
    runWithClock AnomalyDetector.init
        [([⟨"person", 9/10, ⟨0, 0, 10, 10⟩⟩], some 0),
         ([⟨"person", 9/10, ⟨0, 0, 10, 10⟩⟩], some 1)] (fun _ => 37)
      = runWithClock AnomalyDetector.init
        [([⟨"person", 9/10, ⟨0, 0, 10, 10⟩⟩], some 0),
         ([⟨"person", 9/10, ⟨0, 0, 10, 10⟩⟩], some 1)] (fun _ => 99) :=
  C6_deterministic _ (by intro c hc; fin_cases hc <;> simp) AnomalyDetector.init _ _

/-- The C2 counterexample trace: a degenerate handbag box at `t = 0` whose
center is the `(0,0)` sentinel, then a person near the origin at `t = 2`. -/
def c2trace : List (List Det × ℚ) :=
  [([⟨"handbag", 9/10, ⟨0, 0, 0, 0⟩⟩], 0),
   ([⟨"person", 9/10, ⟨0, 0, 20, 20⟩⟩], 2)]

/-- C2 counterexample: with non-decreasing timestamps `0 ≤ 2`, after the
second step the handbag track (id 1, unmatched in that frame) has
`first_time = 2` but `last_time = 0`: the abandonment timer-reset branch set
`first_time` to the current timestamp while `last_time` stayed at the old
observation time, so `last_time ≥ first_time` fails. -/
theorem C2_last_lt_first :
    TimesMono 0 c2trace ∧
    Option.map (fun tr => (tr.first_time, tr.last_time))
        (findTrack 1 (runSteps AnomalyDetector.init c2trace).1.tracks)
      = some (2, 0) ∧
    ¬((2 : ℚ) ≤ 0) := by
  refine ⟨?_, ?_, by norm_num⟩
  · simp only [c2trace, TimesMono]
    norm_num
  · with_unfolding_all decide

/-- The C3 counterexample trace: a handbag whose box is centered exactly on
the origin (so `first_center` is the `(0,0)` sentinel), seen at `t = 0` and
`t = 1`, with a person 40 px away at `t = 1`. -/
def c3trace1 : List (List Det × ℚ) :=
  [([⟨"handbag", 9/10, ⟨-10, -10, 10, 10⟩⟩], 0)]

def c3trace2 : List (List Det × ℚ) :=
  [([⟨"handbag", 9/10, ⟨-10, -10, 10, 10⟩⟩], 0),
   ([⟨"handbag", 9/10, ⟨-10, -10, 10, 10⟩⟩, ⟨"person", 9/10, ⟨30, -10, 50, 10⟩⟩], 1)]

/-- C3 counterexample: track 1 is created in the first frame (`t = 0`) with
`first_time = 0`; in its second frame (`t = 1`) the nearby person makes the
attended timer-reset branch fire again — its `first_center` is still the
`(0,0)` sentinel because the box is centered on the origin — and
`first_time` changes to `1`.  The branch is therefore not restricted to the
first frame, and `first_time` does change after it. -/
theorem C3_reset_after_first_frame :
    Option.map Track.first_time
        (findTrack 1 (runSteps AnomalyDetector.init c3trace1).1.tracks) = some 0 ∧
    Option.map Track.first_time
        (findTrack 1 (runSteps AnomalyDetector.init c3trace2).1.tracks) = some 1 := by
  with_unfolding_all decide

lemma forall2_mem_left {α β : Type} {R : α → β → Prop} :
    ∀ {l : List α} {m : List β}, List.Forall₂ R l m → ∀ p ∈ l, ∃ q ∈ m, R p q := by
  intro l m h
  induction h with
  | nil => intro p hp; exact absurd hp (List.not_mem_nil p)
  | cons hr _ ih =>
    intro p hp
    rcases List.mem_cons.1 hp with rfl | hp'
    · exact ⟨_, List.mem_cons_self _ _, hr⟩
    · obtain ⟨q, hq, hrq⟩ := ih p hp'
      exact ⟨q, List.mem_cons_of_mem _ hq, hrq⟩

lemma forall2_mem_right {α β : Type} {R : α → β → Prop} :
    ∀ {l : List α} {m : List β}, List.Forall₂ R l m → ∀ q ∈ m, ∃ p ∈ l, R p q := by
  intro l m h
  induction h with
  | nil => intro q hq; exact absurd hq (List.not_mem_nil q)
  | cons hr _ ih =>
    intro q hq
    rcases List.mem_cons.1 hq with rfl | hq'
    · exact ⟨_, List.mem_cons_self _ _, hr⟩
    · obtain ⟨p, hp, hrp⟩ := ih q hq'
      exact ⟨p, List.mem_cons_of_mem _ hp, hrp⟩

lemma entry_unique {l : List (Nat × Track)} (hnd : (l.map Prod.fst).Nodup)
    {i : Nat} {a b : Track} (ha : (i, a) ∈ l) (hb : (i, b) ∈ l) : a = b := by
  induction l with
  | nil => exact absurd ha (List.not_mem_nil _)
  | cons p rest ih =>
    rw [List.map_cons, List.nodup_cons] at hnd
    rcases List.mem_cons.1 ha with rfl | ha' <;> rcases List.mem_cons.1 hb with hb' | hb'
    · exact congrArg Prod.snd hb'.symm
    · exact absurd (List.mem_map_of_mem Prod.fst hb') (by simpa using hnd.1)
    · rw [← hb'] at hnd
      exact absurd (List.mem_map_of_mem Prod.fst ha') (by simpa using hnd.1)
    · exact ih hnd.2 ha' hb'

lemma scanTracks_fst (f : Track → Track × Option Alert) :
    ∀ l : List (Nat × Track),
      (scanTracks f l).1 = l.map (fun p => (p.1, (f p.2).1)) := by
  intro l
  induction l with
  | nil => rfl
  | cons p rest ih => simp only [scanTracks, List.map_cons, ih]

lemma scanTracks_snd (f : Track → Track × Option Alert) :
    ∀ l : List (Nat × Track),
      (scanTracks f l).2 = l.filterMap (fun p => (f p.2).2) := by
  intro l
  induction l with
  | nil => rfl
  | cons p rest ih =>
    simp only [scanTracks, List.filterMap_cons, ih]
    rcases (f p.2).2 with _ | a <;> simp

lemma loiterStep_cases (t : ℚ) (tr : Track) :
    loiterStep t tr = (tr, none) ∨
      (tr.alerted = false ∧ LOITER_TIME_S ≤ t - tr.first_time ∧
        loiterStep t tr =
          ({ tr with alerted := true },
           some { type := "loitering", track_id := tr.id,
                  since_s := round1 (t - tr.first_time), box := tr.box,
                  conf := tr.conf, label := none })) := by
  simp only [loiterStep]
  by_cases h1 : tr.alerted = true
  · exact Or.inl (by rw [if_pos h1])
  · rw [if_neg h1]
    by_cases h2 : tr.cls ∈ PERSON_LABELS
    · rw [if_pos h2]
      by_cases h3 : t - tr.first_time < LOITER_TIME_S
      · exact Or.inl (by rw [if_pos h3])
      · rw [if_neg h3]
        by_cases h4 : euclidSq (center_of tr.box) tr.first_center ≤ LOITER_RADIUS_PX ^ 2
        · exact Or.inr ⟨Bool.not_eq_true _ ▸ h1, not_lt.1 h3, by rw [if_pos h4]⟩
        · exact Or.inl (by rw [if_neg h4])
    · exact Or.inl (by rw [if_neg h2])

lemma abandonStep_cases (t : ℚ) (people : List (ℚ × ℚ)) (tr : Track) :
    abandonStep t people tr = (tr, none) ∨
      (tr.alerted = false ∧ tr.first_center = ((0 : ℚ), (0 : ℚ)) ∧
        abandonStep t people tr = ({ tr with first_time := t }, none)) ∨
      (tr.alerted = false ∧ ABANDON_TIME_S ≤ t - tr.first_time ∧
        abandonStep t people tr =
          ({ tr with alerted := true },
           some { type := "abandoned_object", track_id := tr.id,
                  since_s := round1 (t - tr.first_time), box := tr.box,
                  conf := tr.conf, label := some tr.cls })) := by
  simp only [abandonStep]
  by_cases h1 : tr.alerted = true
  · exact Or.inl (by rw [if_pos h1])
  · rw [if_neg h1]
    have h1' : tr.alerted = false := Bool.not_eq_true _ ▸ h1
    by_cases h2 : tr.cls ∈ OBJECT_LABELS
    · rw [if_pos h2]
      by_cases h3 : (people.any fun pc =>
          decide (euclidSq (center_of tr.box) pc ≤ NEAR_PERSON_DIST_PX ^ 2)) = true
      · rw [if_pos h3]
        by_cases h4 : tr.first_center = ((0 : ℚ), (0 : ℚ))
        · exact Or.inr (Or.inl ⟨h1', h4, by rw [if_pos h4]⟩)
        · exact Or.inl (by rw [if_neg h4])
      · rw [if_neg h3]
        by_cases h5 : ABANDON_TIME_S ≤ t - tr.first_time
        · exact Or.inr (Or.inr ⟨h1', h5, by rw [if_pos h5]⟩)
        · exact Or.inl (by rw [if_neg h5])
    · exact Or.inl (by rw [if_neg h2])

lemma applyMatch_fields (tr : Track) (d : Det) (t : ℚ) :
    (applyMatch tr d t).id = tr.id ∧ (applyMatch tr d t).cls = tr.cls ∧
    (applyMatch tr d t).alerted = tr.alerted ∧
    (applyMatch tr d t).first_time = tr.first_time ∧
    (applyMatch tr d t).last_time = t ∧
    (tr.first_center ≠ ((0 : ℚ), (0 : ℚ)) →
      (applyMatch tr d t).first_center = tr.first_center) := by
  simp only [applyMatch, Track.update]
  split
  · next h => simp_all
  · simp_all

/-- Pointwise relation between a track-table entry and its image under the
matching loop: same key, and the track is either untouched or updated at time
`t` with identity fields preserved. -/
def MatchRel (t : ℚ) (p q : Nat × Track) : Prop :=
  q.1 = p.1 ∧
    (q.2 = p.2 ∨
      (q.2.id = p.2.id ∧ q.2.cls = p.2.cls ∧ q.2.alerted = p.2.alerted ∧
       q.2.first_time = p.2.first_time ∧ q.2.last_time = t ∧
       (p.2.first_center ≠ ((0 : ℚ), (0 : ℚ)) →
         q.2.first_center = p.2.first_center)))

lemma matchLoop_rel (dets : List Det) (t : ℚ) :
    ∀ (trs : List (Nat × Track)) (un : List Nat),
      List.Forall₂ (MatchRel t) trs (matchLoop dets t trs un).1 := by
  intro trs
  induction trs with
  | nil => intro un; exact List.Forall₂.nil
  | cons p rest ih =>
    intro un
    obtain ⟨tid, tr⟩ := p
    simp only [matchLoop]
    split
    · split
      · split
        · exact List.Forall₂.cons ⟨rfl, Or.inr (applyMatch_fields tr _ t)⟩ (ih _)
        · exact List.Forall₂.cons ⟨rfl, Or.inl rfl⟩ (ih un)
      · exact List.Forall₂.cons ⟨rfl, Or.inl rfl⟩ (ih un)
    · exact List.Forall₂.cons ⟨rfl, Or.inl rfl⟩ (ih un)

lemma forall2_keys {R : Nat × Track → Nat × Track → Prop}
    (hR : ∀ p q, R p q → q.1 = p.1) :
    ∀ {l m : List (Nat × Track)}, List.Forall₂ R l m →
      m.map Prod.fst = l.map Prod.fst := by
  intro l m h
  induction h with
  | nil => rfl
  | cons hr _ ih => simp only [List.map_cons, ih, hR _ _ hr]

lemma matchLoop_keys (dets : List Det) (t : ℚ) (trs : List (Nat × Track))
    (un : List Nat) :
    (matchLoop dets t trs un).1.map Prod.fst = trs.map Prod.fst :=
  forall2_keys (fun _ _ hr => hr.1) (matchLoop_rel dets t trs un)

lemma createTracks_spec (dets : List Det) (t : ℚ) :
    ∀ (un : List Nat) (nid : Nat),
      nid ≤ (createTracks dets t un nid).2 ∧
      ∀ p ∈ (createTracks dets t un nid).1,
        nid ≤ p.1 ∧ p.1 < (createTracks dets t un nid).2 ∧ p.2.id = p.1 ∧
        p.2.alerted = false ∧ p.2.first_time = t ∧ p.2.last_time = t := by
  intro un
  induction un with
  | nil =>
    intro nid
    exact ⟨le_rfl, fun p hp => absurd hp (List.not_mem_nil p)⟩
  | cons j rest ih =>
    intro nid
    simp only [createTracks]
    rcases hd : dets.get? j with _ | d
    · exact ih nid
    · obtain ⟨hle, hmem⟩ := ih (nid + 1)
      refine ⟨le_trans (Nat.le_succ nid) hle, fun p hp => ?_⟩
      rcases List.mem_cons.1 hp with rfl | hp'
      · exact ⟨le_rfl, lt_of_lt_of_le (Nat.lt_succ_self nid) hle, rfl, rfl, rfl, rfl⟩
      · obtain ⟨h1, h2, h3, h4, h5, h6⟩ := hmem p hp'
        exact ⟨le_trans (Nat.le_succ nid) h1, h2, h3, h4, h5, h6⟩

lemma createTracks_keys_nodup (dets : List Det) (t : ℚ) :
    ∀ (un : List Nat) (nid : Nat),
      (((createTracks dets t un nid).1).map Prod.fst).Nodup := by
  intro un
  induction un with
  | nil => intro nid; exact List.nodup_nil
  | cons j rest ih =>
    intro nid
    simp only [createTracks]
    rcases hd : dets.get? j with _ | d
    · exact ih nid
    · rw [List.map_cons, List.nodup_cons]
      refine ⟨fun hmem => ?_, ih (nid + 1)⟩
      obtain ⟨p, hp, hpk⟩ := List.mem_map.1 hmem
      have := ((createTracks_spec dets t rest (nid + 1)).2 p hp).1
      omega

lemma matchRel_id {t : ℚ} {p q : Nat × Track} (h : MatchRel t p q) :
    q.2.id = p.2.id := by
  rcases h.2 with h' | h'
  · rw [h']
  · exact h'.1

lemma matchRel_cls {t : ℚ} {p q : Nat × Track} (h : MatchRel t p q) :
    q.2.cls = p.2.cls := by
  rcases h.2 with h' | h'
  · rw [h']
  · exact h'.2.1

lemma matchRel_alerted {t : ℚ} {p q : Nat × Track} (h : MatchRel t p q) :
    q.2.alerted = p.2.alerted := by
  rcases h.2 with h' | h'
  · rw [h']
  · exact h'.2.2.1

lemma matchRel_first_time {t : ℚ} {p q : Nat × Track} (h : MatchRel t p q) :
    q.2.first_time = p.2.first_time := by
  rcases h.2 with h' | h'
  · rw [h']
  · exact h'.2.2.2.1

lemma matchRel_last_time {t : ℚ} {p q : Nat × Track} (h : MatchRel t p q) :
    q.2.last_time = p.2.last_time ∨ q.2.last_time = t := by
  rcases h.2 with h' | h'
  · exact Or.inl (by rw [h'])
  · exact Or.inr h'.2.2.2.2.1

lemma matchRel_fc {t : ℚ} {p q : Nat × Track} (h : MatchRel t p q)
    (hfc : p.2.first_center ≠ ((0 : ℚ), (0 : ℚ))) :
    q.2.first_center = p.2.first_center := by
  rcases h.2 with h' | h'
  · rw [h']
  · exact h'.2.2.2.2.2 hfc

lemma assoc_next_id_le (s : DetectorState) (dets : List Det) (t : ℚ) :
    s.next_id ≤ (associate s dets t).next_id :=
  (createTracks_spec dets t
    (matchLoop dets t s.tracks (List.range dets.length)).2 s.next_id).1

lemma assoc_mem_cases (s : DetectorState) (dets : List Det) (t : ℚ)
    (p : Nat × Track) (hp : p ∈ (associate s dets t).tracks) :
    (∃ p0 ∈ s.tracks, MatchRel t p0 p) ∨
      (s.next_id ≤ p.1 ∧ p.1 < (associate s dets t).next_id ∧ p.2.id = p.1 ∧
       p.2.alerted = false ∧ p.2.first_time = t ∧ p.2.last_time = t) := by
  rcases List.mem_append.1 hp with h | h
  · exact Or.inl (forall2_mem_right
      (matchLoop_rel dets t s.tracks (List.range dets.length)) p h)
  · obtain ⟨h1, h2, h3, h4, h5, h6⟩ := (createTracks_spec dets t
      (matchLoop dets t s.tracks (List.range dets.length)).2 s.next_id).2 p h
    exact Or.inr ⟨h1, h2, h3, h4, h5, h6⟩

lemma assoc_wf (s : DetectorState) (dets : List Det) (t : ℚ)
    (h : WellFormed s) : WellFormed (associate s dets t) := by
  obtain ⟨hnd, hmem⟩ := h
  constructor
  · show (((matchLoop dets t s.tracks (List.range dets.length)).1 ++
      (createTracks dets t (matchLoop dets t s.tracks (List.range dets.length)).2
        s.next_id).1).map Prod.fst).Nodup
    rw [List.map_append]
    refine List.Nodup.append ?_ (createTracks_keys_nodup dets t _ s.next_id) ?_
    · rw [matchLoop_keys]; exact hnd
    · intro a ha hb
      rw [matchLoop_keys] at ha
      obtain ⟨p0, hp0, hk0⟩ := List.mem_map.1 ha
      obtain ⟨p1, hp1, hk1⟩ := List.mem_map.1 hb
      have h0 := (hmem p0 hp0).2
      have h1 := ((createTracks_spec dets t _ s.next_id).2 p1 hp1).1
      omega
  · intro p hp
    rcases assoc_mem_cases s dets t p hp with ⟨p0, hp0, hr⟩ | hnew
    · have hk : p.1 = p0.1 := hr.1
      refine ⟨by rw [matchRel_id hr, (hmem p0 hp0).1, hk], ?_⟩
      rw [hk]
      exact lt_of_lt_of_le (hmem p0 hp0).2 (assoc_next_id_le s dets t)
    · exact ⟨hnew.2.2.1, hnew.2.1⟩

lemma purge_mem {s : DetectorState} {t : ℚ} {p : Nat × Track}
    (hp : p ∈ (purgeStale s t).tracks) : p ∈ s.tracks :=
  List.mem_of_mem_filter hp

lemma purge_wf (s : DetectorState) (t : ℚ) (h : WellFormed s) :
    WellFormed (purgeStale s t) := by
  obtain ⟨hnd, hmem⟩ := h
  exact ⟨((List.filter_sublist s.tracks).map Prod.fst).nodup hnd,
    fun p hp => hmem p (purge_mem hp)⟩

lemma loiterStep_track (t : ℚ) (tr : Track) :
    (loiterStep t tr).1 = tr ∨ (loiterStep t tr).1 = { tr with alerted := true } := by
  rcases loiterStep_cases t tr with h | ⟨_, _, h⟩
  · exact Or.inl (congrArg Prod.fst h)
  · exact Or.inr (congrArg Prod.fst h)

lemma abandonStep_track (t : ℚ) (people : List (ℚ × ℚ)) (tr : Track) :
    (abandonStep t people tr).1 = tr ∨
      (tr.first_center = ((0 : ℚ), (0 : ℚ)) ∧
        (abandonStep t people tr).1 = { tr with first_time := t }) ∨
      (abandonStep t people tr).1 = { tr with alerted := true } := by
  rcases abandonStep_cases t people tr with h | ⟨_, hfc, h⟩ | ⟨_, _, h⟩
  · exact Or.inl (congrArg Prod.fst h)
  · exact Or.inr (Or.inl ⟨hfc, congrArg Prod.fst h⟩)
  · exact Or.inr (Or.inr (congrArg Prod.fst h))

lemma loiterStep_of_alerted {t : ℚ} {tr : Track} (h : tr.alerted = true) :
    loiterStep t tr = (tr, none) := by
  rcases loiterStep_cases t tr with h' | ⟨h1, _, _⟩
  · exact h'
  · rw [h] at h1; exact absurd h1 (by simp)

lemma abandonStep_of_alerted {t : ℚ} {people : List (ℚ × ℚ)} {tr : Track}
    (h : tr.alerted = true) : abandonStep t people tr = (tr, none) := by
  rcases abandonStep_cases t people tr with h' | ⟨h1, _, _⟩ | ⟨h1, _, _⟩
  · exact h'
  · rw [h] at h1; exact absurd h1 (by simp)
  · rw [h] at h1; exact absurd h1 (by simp)

lemma loiterStep_some {t : ℚ} {tr : Track} {a : Alert}
    (h : (loiterStep t tr).2 = some a) :
    tr.alerted = false ∧ a.track_id = tr.id ∧
      (loiterStep t tr).1 = { tr with alerted := true } ∧
      LOITER_TIME_S ≤ t - tr.first_time := by
  rcases loiterStep_cases t tr with h' | ⟨h1, h2, h'⟩
  · rw [congrArg Prod.snd h'] at h; exact absurd h (by simp)
  · have hsnd := congrArg Prod.snd h'
    rw [h] at hsnd
    have ha := Option.some.inj hsnd
    exact ⟨h1, by rw [ha], congrArg Prod.fst h', h2⟩

lemma abandonStep_some {t : ℚ} {people : List (ℚ × ℚ)} {tr : Track} {a : Alert}
    (h : (abandonStep t people tr).2 = some a) :
    tr.alerted = false ∧ a.track_id = tr.id ∧
      (abandonStep t people tr).1 = { tr with alerted := true } ∧
      ABANDON_TIME_S ≤ t - tr.first_time := by
  rcases abandonStep_cases t people tr with h' | ⟨_, _, h'⟩ | ⟨h1, h2, h'⟩
  · rw [congrArg Prod.snd h'] at h; exact absurd h (by simp)
  · rw [congrArg Prod.snd h'] at h; exact absurd h (by simp)
  · have hsnd := congrArg Prod.snd h'
    rw [h] at hsnd
    have ha := Option.some.inj hsnd
    exact ⟨h1, by rw [ha], congrArg Prod.fst h', h2⟩

lemma step_state_tracks (s : DetectorState) (dets : List Det) (t : ℚ) :
    (step s dets t).1.tracks =
      ((purgeStale (associate s dets t) t).tracks).map
        (fun p => (p.1,
          (abandonStep t
            (peopleCenters
              (checkLoitering (purgeStale (associate s dets t) t).tracks t).1 t)
            ((loiterStep t p.2).1)).1)) := by
  simp only [step, checkAbandoned, checkLoitering, scanTracks_fst, List.map_map]
  rfl

lemma step_alerts (s : DetectorState) (dets : List Det) (t : ℚ) :
    (step s dets t).2 =
      ((purgeStale (associate s dets t) t).tracks).filterMap
          (fun p => (loiterStep t p.2).2) ++
        ((checkLoitering (purgeStale (associate s dets t) t).tracks t).1).filterMap
          (fun q => (abandonStep t
            (peopleCenters
              (checkLoitering (purgeStale (associate s dets t) t).tracks t).1 t)
            q.2).2) := by
  simp only [step, checkAbandoned, checkLoitering, scanTracks_snd]

lemma step_next_id (s : DetectorState) (dets : List Det) (t : ℚ) :
    (step s dets t).1.next_id = (associate s dets t).next_id := rfl

lemma loiterStep_id (t : ℚ) (tr : Track) : ((loiterStep t tr).1).id = tr.id := by
  rcases loiterStep_track t tr with h | h <;> rw [h]

lemma loiterStep_first_time (t : ℚ) (tr : Track) :
    ((loiterStep t tr).1).first_time = tr.first_time := by
  rcases loiterStep_track t tr with h | h <;> rw [h]

lemma loiterStep_fc (t : ℚ) (tr : Track) :
    ((loiterStep t tr).1).first_center = tr.first_center := by
  rcases loiterStep_track t tr with h | h <;> rw [h]

lemma abandonStep_id (t : ℚ) (people : List (ℚ × ℚ)) (tr : Track) :
    ((abandonStep t people tr).1).id = tr.id := by
  rcases abandonStep_track t people tr with h | ⟨_, h⟩ | h <;> rw [h]

lemma step_wf (s : DetectorState) (dets : List Det) (t : ℚ)
    (h : WellFormed s) : WellFormed (step s dets t).1 := by
  have h2 : WellFormed (purgeStale (associate s dets t) t) :=
    purge_wf _ t (assoc_wf s dets t h)
  obtain ⟨hnd, hmem⟩ := h2
  constructor
  · rw [step_state_tracks, List.map_map]
    exact hnd
  · intro p hp
    rw [step_state_tracks] at hp
    obtain ⟨q, hq, rfl⟩ := List.mem_map.1 hp
    have hq' := hmem q hq
    refine ⟨?_, hq'.2⟩
    show (abandonStep _ _ ((loiterStep t q.2).1)).1.id = q.1
    rw [abandonStep_id, loiterStep_id, hq'.1]

lemma step_next_id_le (s : DetectorState) (dets : List Det) (t : ℚ) :
    s.next_id ≤ (step s dets t).1.next_id := by
  rw [step_next_id]
  exact assoc_next_id_le s dets t

lemma keys_unique {l : List (Nat × Track)} (hnd : (l.map Prod.fst).Nodup)
    {p q : Nat × Track} (hp : p ∈ l) (hq : q ∈ l) (hk : p.1 = q.1) : p = q := by
  obtain ⟨i, a⟩ := p
  obtain ⟨j, b⟩ := q
  obtain rfl : i = j := hk
  rw [entry_unique hnd hp hq]

lemma s2_entry_at_key (s : DetectorState) (dets : List Det) (t : ℚ)
    (hWF : WellFormed s) {i : Nat} {tr : Track} (hmem : (i, tr) ∈ s.tracks)
    {p : Nat × Track}
    (hp : p ∈ (purgeStale (associate s dets t) t).tracks) (hk : p.1 = i) :
    MatchRel t (i, tr) p := by
  rcases assoc_mem_cases s dets t p (purge_mem hp) with ⟨p0, hp0, hr⟩ | hnew
  · have hk0 : p0.1 = i := by rw [← hr.1, hk]
    have : p0 = (i, tr) :=
      keys_unique hWF.1 hp0 hmem hk0
    rwa [this] at hr
  · have := (hWF.2 (i, tr) hmem).2
    omega

lemma s2_wf (s : DetectorState) (dets : List Det) (t : ℚ) (h : WellFormed s) :
    WellFormed (purgeStale (associate s dets t) t) :=
  purge_wf _ t (assoc_wf s dets t h)

lemma step_alert_mem (s : DetectorState) (dets : List Det) (t : ℚ)
    (hWF : WellFormed s) {a : Alert} (ha : a ∈ (step s dets t).2) :
    ∃ p ∈ (purgeStale (associate s dets t) t).tracks,
      a.track_id = p.1 ∧ p.2.alerted = false ∧
      (LOITER_TIME_S ≤ t - p.2.first_time ∨ ABANDON_TIME_S ≤ t - p.2.first_time) := by
  have hwf2 := s2_wf s dets t hWF
  rw [step_alerts] at ha
  rcases List.mem_append.1 ha with h | h
  · obtain ⟨p, hp, hsome⟩ := List.mem_filterMap.1 h
    obtain ⟨hal, hid, -, hdur⟩ := loiterStep_some hsome
    exact ⟨p, hp, by rw [hid, (hwf2.2 p hp).1], hal, Or.inl hdur⟩
  · obtain ⟨q, hq, hsome⟩ := List.mem_filterMap.1 h
    rw [checkLoitering, scanTracks_fst] at hq
    obtain ⟨p, hp, rfl⟩ := List.mem_map.1 hq
    obtain ⟨hal, hid, -, hdur⟩ := abandonStep_some hsome
    have hq2 : (loiterStep t p.2).1 = p.2 := by
      rcases loiterStep_track t p.2 with h' | h'
      · exact h'
      · rw [h'] at hal; exact absurd hal (by simp)
    rw [hq2] at hal hdur hid
    refine ⟨p, hp, ?_, hal, Or.inr hdur⟩
    rw [hid, (hwf2.2 p hp).1]

lemma step_alert_final (s : DetectorState) (dets : List Det) (t : ℚ)
    (hWF : WellFormed s) {a : Alert} (ha : a ∈ (step s dets t).2) :
    ∃ tr', (a.track_id, tr') ∈ (step s dets t).1.tracks ∧ tr'.alerted = true := by
  rw [step_alerts] at ha
  rcases List.mem_append.1 ha with h | h
  · obtain ⟨p, hp, hsome⟩ := List.mem_filterMap.1 h
    obtain ⟨hal, hid, hfst, -⟩ := loiterStep_some hsome
    refine ⟨(abandonStep t
      (peopleCenters
        (checkLoitering (purgeStale (associate s dets t) t).tracks t).1 t)
      ((loiterStep t p.2).1)).1, ?_, ?_⟩
    · rw [step_state_tracks]
      have hwf2 := s2_wf s dets t hWF
      have hkey : a.track_id = p.1 := by rw [hid, (hwf2.2 p hp).1]
      rw [hkey]
      exact List.mem_map.2 ⟨p, hp, rfl⟩
    · rw [abandonStep_of_alerted (by rw [hfst]), hfst]
  · obtain ⟨q, hq, hsome⟩ := List.mem_filterMap.1 h
    rw [checkLoitering, scanTracks_fst] at hq
    obtain ⟨p, hp, rfl⟩ := List.mem_map.1 hq
    obtain ⟨hal, hid, hfst, -⟩ := abandonStep_some hsome
    refine ⟨(abandonStep t
      (peopleCenters
        (checkLoitering (purgeStale (associate s dets t) t).tracks t).1 t)
      ((loiterStep t p.2).1)).1, ?_, ?_⟩
    · rw [step_state_tracks]
      have hwf2 := s2_wf s dets t hWF
      have hkey : a.track_id = p.1 := by
        rw [hid, loiterStep_id, (hwf2.2 p hp).1]
      rw [hkey]
      exact List.mem_map.2 ⟨p, hp, rfl⟩
    · rw [hfst]

lemma filterMap_ids_sublist (g : Nat × Track → Option Alert) :
    ∀ (l : List (Nat × Track)),
      (∀ p ∈ l, ∀ a, g p = some a → a.track_id = p.1) →
      ((l.filterMap g).map Alert.track_id).Sublist (l.map Prod.fst) := by
  intro l
  induction l with
  | nil => intro _; simp
  | cons p rest ih =>
    intro hg
    rw [List.filterMap_cons, List.map_cons]
    rcases hgp : g p with _ | a
    · exact (ih (fun q hq => hg q (List.mem_cons_of_mem _ hq))).cons p.1
    · rw [List.map_cons, hg p (List.mem_cons_self _ _) a hgp]
      exact (ih (fun q hq => hg q (List.mem_cons_of_mem _ hq))).cons₂ p.1

lemma step_alert_ids_nodup (s : DetectorState) (dets : List Det) (t : ℚ)
    (hWF : WellFormed s) : (((step s dets t).2).map Alert.track_id).Nodup := by
  have hwf2 := s2_wf s dets t hWF
  rw [step_alerts, List.map_append]
  set S2 := (purgeStale (associate s dets t) t).tracks with hS2
  set PP := peopleCenters (checkLoitering S2 t).1 t with hPP
  have hgl : ∀ p ∈ S2, ∀ a, (loiterStep t p.2).2 = some a → a.track_id = p.1 :=
    fun p hp a hsome => by
      rw [(loiterStep_some hsome).2.1, (hwf2.2 p hp).1]
  have hga : ∀ q ∈ (checkLoitering S2 t).1, ∀ a,
      (abandonStep t PP q.2).2 = some a → a.track_id = q.1 := by
    intro q hq a hsome
    rw [checkLoitering, scanTracks_fst] at hq
    obtain ⟨p, hp, rfl⟩ := List.mem_map.1 hq
    rw [(abandonStep_some hsome).2.1, loiterStep_id, (hwf2.2 p hp).1]
  have hk1 : ((S2.filterMap (fun p => (loiterStep t p.2).2)).map Alert.track_id).Sublist
      (S2.map Prod.fst) := filterMap_ids_sublist _ S2 hgl
  have hkeysLo : ((checkLoitering S2 t).1).map Prod.fst = S2.map Prod.fst := by
    rw [checkLoitering, scanTracks_fst, List.map_map]
    rfl
  have hk2 : (((checkLoitering S2 t).1.filterMap
        (fun q => (abandonStep t PP q.2).2)).map Alert.track_id).Sublist
      (S2.map Prod.fst) := by
    rw [← hkeysLo]
    exact filterMap_ids_sublist _ _ hga
  refine List.Nodup.append (hk1.nodup hwf2.1) (hk2.nodup hwf2.1) ?_
  intro i h1 h2
  obtain ⟨a1, ha1, hai1⟩ := List.mem_map.1 h1
  obtain ⟨a2, ha2, hai2⟩ := List.mem_map.1 h2
  obtain ⟨p, hp, hs1⟩ := List.mem_filterMap.1 ha1
  obtain ⟨q, hq, hs2⟩ := List.mem_filterMap.1 ha2
  rw [checkLoitering, scanTracks_fst] at hq
  obtain ⟨p', hp', rfl⟩ := List.mem_map.1 hq
  have hid1 : a1.track_id = p.1 := hgl p hp a1 hs1
  have hid2 : a2.track_id = p'.1 := by
    rw [(abandonStep_some hs2).2.1, loiterStep_id, (hwf2.2 p' hp').1]
  have hkk : p.1 = p'.1 := by rw [← hid1, ← hid2, hai1, hai2]
  have : p = p' := keys_unique hwf2.1 hp hp' hkk
  subst this
  have hfst := (loiterStep_some hs1).2.2.1
  have hal2 := (abandonStep_some hs2).1
  rw [hfst] at hal2
  exact absurd hal2 (by simp)

lemma countP_id_le_one (i : Nat) :
    ∀ (l : List Alert), ((l.map Alert.track_id)).Nodup →
      l.countP (fun a => a.track_id == i) ≤ 1 := by
  intro l
  induction l with
  | nil => intro _; simp
  | cons a rest ih =>
    intro h
    rw [List.map_cons, List.nodup_cons] at h
    rw [List.countP_cons]
    by_cases hai : a.track_id = i
    · have h0 : rest.countP (fun b => b.track_id == i) = 0 := by
        rw [List.countP_eq_zero]
        intro b hb
        simp only [beq_iff_eq]
        intro hbi
        have hmem : b.track_id ∈ rest.map Alert.track_id :=
          List.mem_map_of_mem _ hb
        rw [hbi, ← hai] at hmem
        exact h.1 hmem
      simp [h0, hai]
    · simp only [beq_iff_eq, hai]
      simpa using ih h.2

/-- Track id `i` can never alert again: it is below the id counter and every
live entry carrying it (there is at most one) is already latched. -/
def alertedOrDead (s : DetectorState) (i : Nat) : Prop :=
  i < s.next_id ∧ ∀ tr, (i, tr) ∈ s.tracks → tr.alerted = true

lemma s2_alerted_at_key (s : DetectorState) (dets : List Det) (t : ℚ)
    (_hWF : WellFormed s) {i : Nat} (h : alertedOrDead s i) :
    ∀ p ∈ (purgeStale (associate s dets t) t).tracks, p.1 = i →
      p.2.alerted = true := by
  intro p hp hk
  rcases assoc_mem_cases s dets t p (purge_mem hp) with ⟨p0, hp0, hr⟩ | hnew
  · have hk0 : p0.1 = i := by rw [← hr.1, hk]
    have hal0 : p0.2.alerted = true :=
      h.2 p0.2 (by rw [← hk0]; exact (by simpa using hp0))
    rw [matchRel_alerted hr, hal0]
  · have := h.1
    omega

lemma step_aod (s : DetectorState) (dets : List Det) (t : ℚ)
    (hWF : WellFormed s) (i : Nat) (h : alertedOrDead s i) :
    alertedOrDead (step s dets t).1 i ∧
      ∀ a ∈ (step s dets t).2, a.track_id ≠ i := by
  have hal2 := s2_alerted_at_key s dets t hWF h
  constructor
  · constructor
    · exact lt_of_lt_of_le h.1 (step_next_id_le s dets t)
    · intro tr' hmem'
      rw [step_state_tracks] at hmem'
      obtain ⟨q, hq, heq⟩ := List.mem_map.1 hmem'
      have hk : q.1 = i := congrArg Prod.fst heq
      have htr' : tr' = (abandonStep t _ ((loiterStep t q.2).1)).1 :=
        (congrArg Prod.snd heq).symm
      have halq : q.2.alerted = true := hal2 q hq hk
      rw [htr', loiterStep_of_alerted halq, abandonStep_of_alerted halq]
      exact halq
  · intro a ha hai
    obtain ⟨p, hp, hid, hal, -⟩ := step_alert_mem s dets t hWF ha
    have : p.2.alerted = true := hal2 p hp (by rw [← hid, hai])
    rw [hal] at this
    exact absurd this (by simp)

lemma alertCount_nil (i : Nat) : alertCount i [] = 0 := rfl

lemma alertCount_cons (i : Nat) (out : List Alert) (outs : List (List Alert)) :
    alertCount i (out :: outs) =
      out.countP (fun a => a.track_id == i) + alertCount i outs := by
  simp [alertCount, List.countP_append]

lemma runSteps_cons (s : DetectorState) (dets : List Det) (t : ℚ)
    (rest : List (List Det × ℚ)) :
    runSteps s ((dets, t) :: rest) =
      ((runSteps (step s dets t).1 rest).1,
        (step s dets t).2 :: (runSteps (step s dets t).1 rest).2) := rfl

lemma run_aux :
    ∀ (trace : List (List Det × ℚ)) (s : DetectorState), WellFormed s →
      (∀ i, alertedOrDead s i → alertCount i (runSteps s trace).2 = 0) ∧
      (∀ i, alertCount i (runSteps s trace).2 ≤ 1) := by
  intro trace
  induction trace with
  | nil =>
    intro s _
    refine ⟨fun i _ => rfl, fun i => ?_⟩
    show alertCount i [] ≤ 1
    rw [alertCount_nil]
    omega
  | cons c rest ih =>
    intro s hWF
    obtain ⟨dets, t⟩ := c
    have hWF1 : WellFormed (step s dets t).1 := step_wf s dets t hWF
    obtain ⟨ih0, ih1⟩ := ih (step s dets t).1 hWF1
    constructor
    · intro i hi
      obtain ⟨haod, hno⟩ := step_aod s dets t hWF i hi
      rw [runSteps_cons, alertCount_cons, ih0 i haod]
      have h0 : (step s dets t).2.countP (fun a => a.track_id == i) = 0 := by
        rw [List.countP_eq_zero]
        intro a ha
        simpa using hno a ha
      omega
    · intro i
      rw [runSteps_cons, alertCount_cons]
      by_cases hc : ∃ a ∈ (step s dets t).2, a.track_id = i
      · obtain ⟨a, ha, hai⟩ := hc
        have h1 : (step s dets t).2.countP (fun a => a.track_id == i) ≤ 1 :=
          countP_id_le_one i _ (step_alert_ids_nodup s dets t hWF)
        have haod : alertedOrDead (step s dets t).1 i := by
          obtain ⟨tr', hmem', htr'⟩ := step_alert_final s dets t hWF ha
          rw [hai] at hmem'
          have hlt : i < (step s dets t).1.next_id := (hWF1.2 _ hmem').2
          refine ⟨hlt, fun tr'' hmem'' => ?_⟩
          have heqq : (i, tr'') = (i, tr') := keys_unique hWF1.1 hmem'' hmem' rfl
          have heqq2 : tr'' = tr' := congrArg Prod.snd heqq
          rw [heqq2]
          exact htr'
        rw [ih0 i haod]
        omega
      · push_neg at hc
        have h0 : (step s dets t).2.countP (fun a => a.track_id == i) = 0 := by
          rw [List.countP_eq_zero]
          intro a ha
          simpa using hc a ha
        rw [h0]
        simpa using ih1 i

lemma wf_init : WellFormed AnomalyDetector.init :=
  ⟨List.nodup_nil, fun p hp => absurd hp (List.not_mem_nil p)⟩

/-- C1: over any run from a fresh engine, each track id carries at most one
alert in total; a track latched `alerted` stays latched across a step and
draws no further alert; and both rule scans leave an already-alerted track
untouched and emit nothing for it. -/
theorem C1_one_alert_per_track :
    (∀ (trace : List (List Det × ℚ)) (i : Nat),
        alertCount i (runSteps AnomalyDetector.init trace).2 ≤ 1) ∧
    (∀ (s : DetectorState) (dets : List Det) (t : ℚ) (i : Nat) (tr : Track),
        WellFormed s → (i, tr) ∈ s.tracks → tr.alerted = true →
        (∀ a ∈ (step s dets t).2, a.track_id ≠ i) ∧
        (∀ tr', (i, tr') ∈ (step s dets t).1.tracks → tr'.alerted = true)) ∧
    (∀ (t : ℚ) (tr : Track), tr.alerted = true → loiterStep t tr = (tr, none)) ∧
    (∀ (t : ℚ) (people : List (ℚ × ℚ)) (tr : Track), tr.alerted = true →
        abandonStep t people tr = (tr, none)) := by
  refine ⟨fun trace i => (run_aux trace AnomalyDetector.init wf_init).2 i,
    fun s dets t i tr hWF hmem hal => ?_,
    fun t tr h => loiterStep_of_alerted h,
    fun t people tr h => abandonStep_of_alerted h⟩
  have haod : alertedOrDead s i := by
    refine ⟨(hWF.2 (i, tr) hmem).2, fun tr'' hmem'' => ?_⟩
    have heqq : (i, tr'') = (i, tr) := keys_unique hWF.1 hmem'' hmem rfl
    have heqq2 : tr'' = tr := congrArg Prod.snd heqq
    rw [heqq2]
    exact hal
  obtain ⟨h1, h2⟩ := step_aod s dets t hWF i haod
  exact ⟨h2, h1.2⟩

/-- A single already-alerted person track, for witnesses. -/
def trAl : Track :=
  ⟨1, "person", ⟨0, 0, 10, 10⟩, 9/10, 0, 0, (5, 5), true⟩

/-- An engine state holding only the alerted track `trAl`. -/
def stAl : DetectorState := ⟨2, [(1, trAl)]⟩

/-- C1 witness: the four conjuncts instantiated at a concrete one-step trace
and at the concrete alerted track `trAl`. -/
theorem C1_one_alert_per_track_witness :
    alertCount 1 (runSteps AnomalyDetector.init
        [([⟨"person", 9/10, ⟨0, 0, 10, 10⟩⟩], 0)]).2 ≤ 1 ∧
    ((∀ a ∈ (step stAl [] 31).2, a.track_id ≠ 1) ∧
      (∀ tr', (1, tr') ∈ (step stAl [] 31).1.tracks → tr'.alerted = true)) ∧
    loiterStep 31 trAl = (trAl, none) ∧
    abandonStep 31 [] trAl = (trAl, none) :=
  ⟨C1_one_alert_per_track.1 _ 1,
   C1_one_alert_per_track.2.1 stAl [] 31 1 trAl (by simp only [WellFormed]; decide)
     (List.mem_cons_self _ _) rfl,
   C1_one_alert_per_track.2.2.1 31 trAl rfl,
   C1_one_alert_per_track.2.2.2 31 [] trAl rfl⟩

/-- C9: every alert a step emits carries a track id from before that step;
a track created during the step has `first_time = t`, so its duration is `0`,
below both positive thresholds. -/
theorem C9_no_alert_on_creation_frame :
    ∀ (s : DetectorState) (dets : List Det) (t : ℚ), WellFormed s →
      ∀ a ∈ (step s dets t).2, a.track_id < s.next_id := by
  intro s dets t hWF a ha
  obtain ⟨p, hp, hid, -, hdur⟩ := step_alert_mem s dets t hWF ha
  rcases assoc_mem_cases s dets t p (purge_mem hp) with ⟨p0, hp0, hr⟩ | hnew
  · rw [hid, hr.1]
    exact (hWF.2 p0 hp0).2
  · rw [hnew.2.2.2.2.1] at hdur
    rcases hdur with hdur | hdur
    · rw [sub_self] at hdur
      exact absurd hdur (by norm_num [LOITER_TIME_S])
    · rw [sub_self] at hdur
      exact absurd hdur (by norm_num [ABANDON_TIME_S])

/-- An un-alerted person track present since `t = 0`, for witnesses. -/
def trP : Track :=
  ⟨1, "person", ⟨0, 0, 10, 10⟩, 9/10, 0, 0, (5, 5), false⟩

/-- An engine state holding only `trP`. -/
def stP : DetectorState := ⟨2, [(1, trP)]⟩

/-- C9 witness: at `t = 30` the state `stP` does emit a loitering alert, and
its track id is below the pre-step id counter. -/
theorem C9_no_alert_on_creation_frame_witness :
    WellFormed stP ∧
    ∀ a ∈ (step stP [⟨"person", 9/10, ⟨0, 0, 10, 10⟩⟩] 30).2,
      a.track_id < 2 :=
  ⟨by simp only [WellFormed]; decide,
   C9_no_alert_on_creation_frame stP _ 30 (by simp only [WellFormed]; decide)⟩

lemma step_timeOK (s : DetectorState) (dets : List Det) (t T : ℚ)
    (hT : T ≤ t)
    (h : ∀ p ∈ s.tracks, p.2.first_time ≤ T ∧ p.2.last_time ≤ T ∧
      (p.2.first_center ≠ ((0 : ℚ), (0 : ℚ)) →
        p.2.first_time ≤ p.2.last_time)) :
    ∀ p ∈ (step s dets t).1.tracks,
      p.2.first_time ≤ t ∧ p.2.last_time ≤ t ∧
      (p.2.first_center ≠ ((0 : ℚ), (0 : ℚ)) →
        p.2.first_time ≤ p.2.last_time) := by
  intro p hp
  rw [step_state_tracks] at hp
  obtain ⟨q, hq, heq⟩ := List.mem_map.1 hp
  have hqOK : q.2.first_time ≤ t ∧ q.2.last_time ≤ t ∧
      (q.2.first_center ≠ ((0 : ℚ), (0 : ℚ)) →
        q.2.first_time ≤ q.2.last_time) := by
    rcases assoc_mem_cases s dets t q (purge_mem hq) with ⟨p0, hp0, hr⟩ | hnew
    · obtain ⟨hf0, hl0, hfc0⟩ := h p0 hp0
      rcases hr.2 with hqe | ⟨-, -, -, hft, hlt, -⟩
      · rw [hqe]
        exact ⟨le_trans hf0 hT, le_trans hl0 hT, hfc0⟩
      · rw [hft, hlt]
        exact ⟨le_trans hf0 hT, le_rfl, fun _ => le_trans hf0 hT⟩
    · rw [hnew.2.2.2.2.1, hnew.2.2.2.2.2]
      exact ⟨le_rfl, le_rfl, fun _ => le_rfl⟩
  have hq1OK : ((loiterStep t q.2).1).first_time ≤ t ∧
      ((loiterStep t q.2).1).last_time ≤ t ∧
      (((loiterStep t q.2).1).first_center ≠ ((0 : ℚ), (0 : ℚ)) →
        ((loiterStep t q.2).1).first_time ≤ ((loiterStep t q.2).1).last_time) := by
    rcases loiterStep_track t q.2 with h' | h' <;> rw [h'] <;> exact hqOK
  have hpq : p.2 = (abandonStep t
      (peopleCenters
        (checkLoitering (purgeStale (associate s dets t) t).tracks t).1 t)
      ((loiterStep t q.2).1)).1 := (congrArg Prod.snd heq).symm
  rw [hpq]
  rcases abandonStep_track t
      (peopleCenters
        (checkLoitering (purgeStale (associate s dets t) t).tracks t).1 t)
      ((loiterStep t q.2).1) with h' | ⟨hfc, h'⟩ | h'
  · rw [h']
    exact hq1OK
  · rw [h']
    refine ⟨le_rfl, hq1OK.2.1, fun hne => ?_⟩
    exact absurd hfc (by simpa using hne)
  · rw [h']
    exact hq1OK

lemma run_timeOK :
    ∀ (trace : List (List Det × ℚ)) (T : ℚ) (s : DetectorState),
      (∀ p ∈ s.tracks, p.2.first_time ≤ T ∧ p.2.last_time ≤ T ∧
        (p.2.first_center ≠ ((0 : ℚ), (0 : ℚ)) →
          p.2.first_time ≤ p.2.last_time)) →
      TimesMono T trace →
      ∀ p ∈ (runSteps s trace).1.tracks,
        p.2.first_center ≠ ((0 : ℚ), (0 : ℚ)) →
        p.2.first_time ≤ p.2.last_time := by
  intro trace
  induction trace with
  | nil => intro T s h _ p hp hfc; exact (h p hp).2.2 hfc
  | cons c rest ih =>
    intro T s h hm
    obtain ⟨dets, t⟩ := c
    simp only [TimesMono] at hm
    exact ih t (step s dets t).1 (step_timeOK s dets t T hm.1 h) hm.2

/-- C2 as amended: with monotonically non-decreasing timestamps, after any
run every live track whose `first_center` differs from the `(0,0)` sentinel
satisfies `last_time ≥ first_time`.  (For a sentinel-centered track the
abandonment timer reset can push `first_time` past `last_time`.) -/
theorem C2_time_order_unless_sentinel :
    ∀ (trace : List (List Det × ℚ)) (T : ℚ), TimesMono T trace →
      ∀ p ∈ (runSteps AnomalyDetector.init trace).1.tracks,
        p.2.first_center ≠ ((0 : ℚ), (0 : ℚ)) →
        p.2.first_time ≤ p.2.last_time :=
  fun trace T hm =>
    run_timeOK trace T AnomalyDetector.init
      (fun p hp => absurd hp (List.not_mem_nil p)) hm

/-- A short two-frame trace with non-decreasing timestamps, for witnesses. -/
def c2wtrace : List (List Det × ℚ) :=
  [([⟨"person", 9/10, ⟨0, 0, 10, 10⟩⟩], 0),
   ([⟨"person", 9/10, ⟨0, 0, 10, 10⟩⟩], 1)]

/-- C2 witness: the amended statement instantiated at the concrete two-frame
trace `c2wtrace`. -/
theorem C2_time_order_unless_sentinel_witness :
    TimesMono 0 c2wtrace ∧
    ∀ p ∈ (runSteps AnomalyDetector.init c2wtrace).1.tracks,
      p.2.first_center ≠ ((0 : ℚ), (0 : ℚ)) →
      p.2.first_time ≤ p.2.last_time := by
  have hm : TimesMono 0 c2wtrace := by
    simp only [c2wtrace, TimesMono]
    norm_num
  exact ⟨hm, C2_time_order_unless_sentinel c2wtrace 0 hm⟩

/-- C3 as amended: the attended timer-reset branch fires only when the
track's `first_center` equals the `(0,0)` sentinel; consequently, for any
track whose `first_center` is not the sentinel, `first_time` is unchanged by
every step, whatever people are present. -/
theorem C3_first_time_frozen_without_sentinel :
    (∀ (t : ℚ) (people : List (ℚ × ℚ)) (tr : Track),
        (abandonStep t people tr).1.first_time ≠ tr.first_time →
        tr.first_center = ((0 : ℚ), (0 : ℚ))) ∧
    (∀ (s : DetectorState) (dets : List Det) (t : ℚ) (i : Nat) (tr : Track),
        WellFormed s → (i, tr) ∈ s.tracks →
        tr.first_center ≠ ((0 : ℚ), (0 : ℚ)) →
        ∀ tr', (i, tr') ∈ (step s dets t).1.tracks →
          tr'.first_time = tr.first_time) := by
  constructor
  · intro t people tr hne
    rcases abandonStep_track t people tr with h' | ⟨hfc, h'⟩ | h'
    · exact absurd (by rw [h']) hne
    · exact hfc
    · exact absurd (by rw [h']) hne
  · intro s dets t i tr hWF hmem hfc tr' hmem'
    rw [step_state_tracks] at hmem'
    obtain ⟨q, hq, heq⟩ := List.mem_map.1 hmem'
    have hk : q.1 = i := congrArg Prod.fst heq
    have htr' : tr' = (abandonStep t
        (peopleCenters
          (checkLoitering (purgeStale (associate s dets t) t).tracks t).1 t)
        ((loiterStep t q.2).1)).1 := (congrArg Prod.snd heq).symm
    have hr := s2_entry_at_key s dets t hWF hmem hq hk
    have hqft : q.2.first_time = tr.first_time := matchRel_first_time hr
    have hqfc : q.2.first_center = tr.first_center := matchRel_fc hr hfc
    have h1ft : ((loiterStep t q.2).1).first_time = tr.first_time := by
      rw [loiterStep_first_time, hqft]
    have h1fc : ((loiterStep t q.2).1).first_center ≠ ((0 : ℚ), (0 : ℚ)) := by
      rw [loiterStep_fc, hqfc]
      exact hfc
    rw [htr']
    rcases abandonStep_track t
        (peopleCenters
          (checkLoitering (purgeStale (associate s dets t) t).tracks t).1 t)
        ((loiterStep t q.2).1) with h' | ⟨hfc0, h'⟩ | h'
    · rw [h']
      exact h1ft
    · exact absurd hfc0 h1fc
    · rw [h']
      exact h1ft

/-- A handbag track whose box is centered on the origin, so that its
`first_center` is exactly the `(0,0)` sentinel. -/
def trS : Track :=
  ⟨1, "handbag", ⟨-10, -10, 10, 10⟩, 9/10, 0, 0, (0, 0), false⟩

/-- C3 witness: the reset branch does change `first_time` on the concrete
sentinel-centered track `trS` with a person 40 px away (so the conclusion of
the first conjunct is exercised with a true hypothesis), and the second
conjunct instantiated at the concrete non-sentinel state `stP`. -/
theorem C3_first_time_frozen_witness :
    ((abandonStep 1 [((40 : ℚ), (0 : ℚ))] trS).1.first_time ≠ trS.first_time) ∧
    trS.first_center = ((0 : ℚ), (0 : ℚ)) ∧
    (trP.first_center ≠ ((0 : ℚ), (0 : ℚ)) ∧
      ∀ tr', (1, tr') ∈ (step stP [] 1).1.tracks →
        tr'.first_time = trP.first_time) :=
  ⟨by with_unfolding_all decide,
   C3_first_time_frozen_without_sentinel.1 1 [((40 : ℚ), (0 : ℚ))] trS
     (by with_unfolding_all decide),
   by with_unfolding_all decide,
   C3_first_time_frozen_without_sentinel.2 stP [] 1 1 trP
     (by simp only [WellFormed]; decide) (List.mem_cons_self _ _)
     (by with_unfolding_all decide)⟩

lemma matchLoop_single (dets : List Det) (t : ℚ) (i2 : Nat) (tr2 : Track)
    (un : List Nat) :
    (∃ j2 d2, j2 ∈ un ∧ dets.get? j2 = some d2 ∧
        (matchLoop dets t [(i2, tr2)] un).1 = [(i2, applyMatch tr2 d2 t)]) ∨
      (matchLoop dets t [(i2, tr2)] un).1 = [(i2, tr2)] := by
  rcases hb : bestMatch tr2 dets un (none, 0) with ⟨jo, s'⟩
  rcases jo with _ | j2
  · simp only [matchLoop, hb]
    exact Or.inr (by trivial)
  · by_cases hthr : MATCH_IOU_THR ≤ s'
    · rcases hd2 : dets.get? j2 with _ | d2
      · simp only [matchLoop, hb, hd2]
        rw [if_pos hthr]
        exact Or.inr (by trivial)
      · simp only [matchLoop, hb, hd2]
        rw [if_pos hthr]
        obtain ⟨hmem, -⟩ := bestMatch_init_spec tr2 dets un j2 s' hb
        exact Or.inl ⟨j2, d2, hmem, hd2, rfl⟩
    · simp only [matchLoop, hb]
      rw [if_neg hthr]
      exact Or.inr (by trivial)

/-- C10: with two same-class tracks in table (creation) order whose
best unmatched candidate is the same detection `j` at or above the match
threshold, the greedy loop gives `j` to the earlier track; the later track is
left unchanged or matched to some other index. -/
theorem C10_greedy_earlier_track_wins :
    ∀ (i1 i2 : Nat) (tr1 tr2 : Track) (dets : List Det) (t : ℚ) (j : Nat)
      (s1 s2 : ℚ) (d : Det),
      i1 < i2 → tr1.cls = tr2.cls →
      bestMatch tr1 dets (List.range dets.length) (none, 0) = (some j, s1) →
      MATCH_IOU_THR ≤ s1 →
      bestMatch tr2 dets (List.range dets.length) (none, 0) = (some j, s2) →
      MATCH_IOU_THR ≤ s2 →
      dets.get? j = some d →
      ∃ tr2',
        (matchLoop dets t [(i1, tr1), (i2, tr2)] (List.range dets.length)).1
          = [(i1, applyMatch tr1 d t), (i2, tr2')] ∧
        (tr2' = tr2 ∨
          ∃ j2 d2, j2 ≠ j ∧ dets.get? j2 = some d2 ∧
            tr2' = applyMatch tr2 d2 t) := by
  intro i1 i2 tr1 tr2 dets t j s1 s2 d hlt hcls hb1 hthr1 hb2 hthr2 hd
  have hout : (matchLoop dets t [(i1, tr1), (i2, tr2)] (List.range dets.length)).1
      = (i1, applyMatch tr1 d t) ::
        (matchLoop dets t [(i2, tr2)] ((List.range dets.length).erase j)).1 := by
    simp only [matchLoop, hb1, hd]
    rw [if_pos hthr1]
  rcases matchLoop_single dets t i2 tr2 ((List.range dets.length).erase j) with
    ⟨j2, d2, hmem, hd2, hml⟩ | hml
  · have hne : j2 ≠ j :=
      (((List.nodup_range dets.length).mem_erase_iff).1 hmem).1
    exact ⟨applyMatch tr2 d2 t, by rw [hout, hml],
      Or.inr ⟨j2, d2, hne, hd2, rfl⟩⟩
  · exact ⟨tr2, by rw [hout, hml], Or.inl rfl⟩

/-- A second un-alerted person track with the same box as `trP`, created
later (id 2). -/
def trQ : Track :=
  ⟨2, "person", ⟨0, 0, 10, 10⟩, 9/10, 0, 0, (5, 5), false⟩

lemma bestMatch_single_box (tr : Track) (h : tr.cls = "person")
    (hbox : tr.box = ⟨0, 0, 10, 10⟩) :
    bestMatch tr [⟨"person", 9/10, ⟨0, 0, 10, 10⟩⟩] [0] (none, 0)
      = (some 0, iou tr.box ⟨0, 0, 10, 10⟩) := by
  have hpos : (0 : ℚ) < iou tr.box ⟨0, 0, 10, 10⟩ := by
    rw [hbox, iou_self_eq _ (by norm_num) (by norm_num)]
    norm_num [areaOf]
  simp only [bestMatch, List.get?_cons_zero]
  rw [if_pos (by rw [h]), if_pos hpos]

/-- C10 witness: the theorem instantiated at two concrete same-class tracks
that both best-match the single detection of the frame. -/
theorem C10_greedy_earlier_track_wins_witness :
    MATCH_IOU_THR ≤ iou (⟨0, 0, 10, 10⟩ : Box) ⟨0, 0, 10, 10⟩ ∧
    ∃ tr2',
      (matchLoop [⟨"person", 9/10, ⟨0, 0, 10, 10⟩⟩] 1 [(1, trP), (2, trQ)]
          (List.range 1)).1
        = [(1, applyMatch trP ⟨"person", 9/10, ⟨0, 0, 10, 10⟩⟩ 1), (2, tr2')] ∧
      (tr2' = trQ ∨
        ∃ j2 d2, j2 ≠ 0 ∧
          ([⟨"person", 9/10, ⟨0, 0, 10, 10⟩⟩] : List Det).get? j2 = some d2 ∧
          tr2' = applyMatch trQ d2 1) := by
  have hthr : MATCH_IOU_THR ≤ iou (⟨0, 0, 10, 10⟩ : Box) ⟨0, 0, 10, 10⟩ := by
    rw [iou_self_eq _ (by norm_num) (by norm_num), MATCH_IOU_THR]
    norm_num [areaOf]
  exact ⟨hthr,
    C10_greedy_earlier_track_wins 1 2 trP trQ
      [⟨"person", 9/10, ⟨0, 0, 10, 10⟩⟩] 1 0
      (iou trP.box ⟨0, 0, 10, 10⟩) (iou trQ.box ⟨0, 0, 10, 10⟩)
      ⟨"person", 9/10, ⟨0, 0, 10, 10⟩⟩ (by norm_num) rfl
      (bestMatch_single_box trP rfl rfl) hthr
      (bestMatch_single_box trQ rfl rfl) hthr rfl⟩
